import Mathlib

/-!
Verification of the color-clustering and mask-derivation pipeline of
`Segmentation_App.py` (repository `Segmentation_App`).

The embedding is a shallow one.  Images are flattened row-major pixel
lists, exactly the representation the program itself reduces to before
clustering (`data = self.original_image.reshape((-1, 3))`): every
operation the claims are about (mask derivation, compositing, palette
conversion, mask export) is pixel-wise, so a flat list of pixels with
its length standing for `height * width` is a faithful model of the
2-D numpy arrays.  External library calls (`cv2.kmeans`,
`cv2.GaussianBlur`, `cv2.imread`, ...) are parameters of the embedded
functions: the repository code under verification is exactly what is
written around them.
-/

/-- One pixel: three unsigned 8-bit channel values (blue, green, red). -/
abbrev Pix := Nat × Nat × Nat

/-- An image, flattened row-major; its length is `height * width`. -/
abbrev Image := List Pix

/-- A uint8 mask grid, flattened the same way as the image it belongs to. -/
abbrev Mask := List Nat

/-- A per-pixel cluster-label grid, flattened the same way. -/
abbrev LabelMap := List Nat

/-- `np.zeros_like(image)`: a black image of the same shape
(`Segmentation_App.py` lines 532, 561, 1072). -/
def zerosLike (img : Image) : Image :=
  img.map (fun _ => (0, 0, 0))

/-- The numpy masked assignment
`combined_image[mask == 255] = original_image[mask == 255]`
(`Segmentation_App.py` lines 535 and 564): where the mask cell is 255 the
original pixel is taken, elsewhere the accumulator pixel is kept. -/
def overlayVisible : Image → Mask → Image → Image
  | o :: os, m :: ms, a :: as =>
      (if m = 255 then o else a) :: overlayVisible os ms as
  | _, _, _ => []

/-- The body shared by `UniformColorMaskDialog.update_visibility`
(lines 530-537) and `UniformColorMaskDialog.apply_visibility`
(lines 559-564): start from `np.zeros_like(original)`, then for each
`(mask, is_visible)` pair of `zip(masks, visibility)`, when visible,
overwrite the positions where `mask == 255` with the original pixels. -/
def combined_image (masks : List Mask) (vis : List Bool) (orig : Image) : Image :=
  (masks.zip vis).foldl
    (fun acc mv => if mv.2 then overlayVisible orig mv.1 acc else acc)
    (zerosLike orig)

/-- The colored mask view built by `UniformColorMaskDialog.__init__`
(lines 469-470) and `KMeansSegmentationApp.save_segments` (lines 1072-1073):
`out = np.zeros_like(original); out[mask == 255] = color`.  The original
image only supplies the shape. -/
def mask_color_image : Image → Mask → Pix → Image
  | _ :: os, m :: ms, c =>
      (if m = 255 then c else (0, 0, 0)) :: mask_color_image os ms c
  | _, _, _ => []

/-- The mask of one cluster, built by `KMeansSegmentationApp.segment_image`
(lines 1003-1004): `mask = np.zeros(shape, dtype=np.uint8);
mask[labels == i] = 255`. -/
def clusterMask (labels : LabelMap) (i : Nat) : Mask :=
  labels.map (fun l => if l = i then 255 else 0)

/-- The list of all `k` cluster masks built by the loop
`for i in range(k)` of `KMeansSegmentationApp.segment_image`
(lines 1002-1006). -/
def clusterMasks (labels : LabelMap) (k : Nat) : List Mask :=
  (List.range k).map (clusterMask labels)

/-- The `np.uint8(...)` cast applied to one real-valued centroid channel
(`Segmentation_App.py` line 994).  A C-style float-to-uint8 conversion
truncates the fractional part; K-means centroids of uint8 data are
nonnegative, so truncation toward zero is the floor, reduced mod 256. -/
def np_uint8 (q : ℚ) : Nat := (⌊q⌋).toNat % 256

/-- `np.uint8` applied to all three channels of one centroid. -/
def toPix (c : ℚ × ℚ × ℚ) : Pix :=
  (np_uint8 c.1, np_uint8 c.2.1, np_uint8 c.2.2)

/-- `segmented_data = centers[labels.flatten()]`
(`Segmentation_App.py` line 995): numpy fancy indexing, replacing each
label with the corresponding (already uint8-cast) center. -/
def segmentedData (centers : List Pix) (labels : LabelMap) : Image :=
  labels.map (fun l => centers.getD l (0, 0, 0))

/-- The result `cv2.kmeans` hands back to `segment_image`: a flat label
per pixel and `k` real-valued centroid colors. -/
structure KMeansOut where
  labels : LabelMap
  centers : List (ℚ × ℚ × ℚ)
deriving DecidableEq

/-- The session fields of `KMeansSegmentationApp` the specified core
mutates (initialised at lines 741-745). -/
structure Session where
  original_image : Option Image
  segmented_image : Option Image
  dominant_colors : List Pix
  masks : List Mask
  cluster_visibility : List Bool
deriving DecidableEq

/-- `KMeansSegmentationApp.segment_image` (lines 963-1022) as a state
transition.  The `cv2.kmeans` library call is a parameter.  The method
returns at once when no image is loaded; when the library call raises,
the exception is caught (lines 1013-1018) before any session field was
assigned, so the state is unchanged; on success the segmented image,
palette, masks and visibility flags are installed together.  Note that
the method never inspects `k` itself: the value parsed from the text
field is passed straight to the library. -/
def segment_image (kmeans : Image → Nat → Except String KMeansOut)
    (s : Session) (k : Nat) : Session :=
  match s.original_image with
  | none => s
  | some img =>
    match kmeans img k with
    | .error _ => s
    | .ok r =>
      let centers := r.centers.map toPix
      { s with
        segmented_image := some (segmentedData centers r.labels)
        dominant_colors := centers
        masks := clusterMasks r.labels k
        cluster_visibility := List.replicate k true }

/-- `KMeansSegmentationApp.load_image` (lines 866-918) as a state
transition; `cv2.imread` and `cv2.resize` are parameters, and `path` is
`none` when the user cancels the file dialog.  The method assigns
`self.original_image = cv2.imread(file_path)` (line 878) *before*
validating it; when the read fails the `ValueError` raised at line 880
is caught at line 913 and the remaining statements are skipped, so the
session keeps the freshly assigned `None` image and its other fields
untouched.  On success an oversized image (more than `4000 * 3000`
pixels) is resized first, and the previous segmentation results are
cleared (lines 906-909). -/
def load_image (imread : String → Option Image) (resize : Image → Image)
    (s : Session) (path : Option String) : Session :=
  match path with
  | none => s
  | some p =>
    match imread p with
    | none => { s with original_image := none }
    | some img =>
      let img := if 4000 * 3000 < img.length then resize img else img
      { s with
        original_image := some img
        segmented_image := none
        dominant_colors := []
        masks := []
        cluster_visibility := [] }

/-- The fields of `UniformColorMaskDialog` (lines 424-437) that
`apply_visibility` reads. -/
structure MaskDialog where
  masks : List Mask
  colors : List Pix
  original_image : Image
  cluster_visibility : List Bool

/-- `UniformColorMaskDialog.update_visibility` (lines 530-537): the
preview image recomputed from the dialog's masks, visibility flags and
original image. -/
def update_visibility (d : MaskDialog) : Image :=
  combined_image d.masks d.cluster_visibility d.original_image

/-- `UniformColorMaskDialog.apply_visibility` (lines 559-569): recompute
the combined image and overwrite the parent session's `segmented_image`
and `cluster_visibility` with it. -/
def apply_visibility (d : MaskDialog) (parent : Session) : Session :=
  { parent with
    segmented_image := some (combined_image d.masks d.cluster_visibility d.original_image)
    cluster_visibility := d.cluster_visibility }

/-- The filter kinds offered by `ImageFilterDialog` (lines 96-102). -/
inductive FilterType
  | noFilter
  | gaussianBlur
  | medianBlur
  | bilateralFilter
  | sharpen

/-- The `self.current_params` dictionary of `ImageFilterDialog`: absent
keys fall back to the defaults written at the `.get` call sites. -/
structure FilterParams where
  kernelSize : Option Nat
  sigma : Option ℚ
  diameter : Option Nat
  sigmaColor : Option Nat
  sigmaSpace : Option Nat
  amount : Option ℚ

/-- The external `cv2` filter entry points `ImageFilterDialog.apply_filter`
dispatches to; they are parameters of the embedding. -/
structure VisionLib where
  gaussianBlur : Image → Nat → ℚ → Image
  medianBlur : Image → Nat → Image
  bilateralFilter : Image → Nat → Nat → Nat → Image
  filter2D : Image → List (List ℚ) → Image

/-- The kernel-size normalization written inline at lines 336 and 345:
`kernel_size if kernel_size % 2 == 1 else kernel_size + 1`. -/
def oddKernel (ks : Nat) : Nat := if ks % 2 = 1 then ks else ks + 1

/-- The sharpen kernel of lines 364-368:
`np.array([[-1,-1,-1],[-1,9,-1],[-1,-1,-1]]) * amount`. -/
def sharpenKernel (amount : ℚ) : List (List ℚ) :=
  [[-1, -1, -1], [-1, 9, -1], [-1, -1, -1]].map (fun row => row.map (fun x => x * amount))

/-- `ImageFilterDialog.apply_filter` (lines 326-375): dispatch on the
selected filter type, read each parameter from `current_params` with its
call-site default, normalize even blur kernel sizes to the next odd
value, and invoke the corresponding `cv2` routine.  `No Filter` copies
the original image unchanged. -/
def apply_filter (cv : VisionLib) (orig : Image) (ft : FilterType)
    (ps : FilterParams) : Image :=
  match ft with
  | .noFilter => orig
  | .gaussianBlur =>
      cv.gaussianBlur orig (oddKernel (ps.kernelSize.getD 5)) (ps.sigma.getD 1)
  | .medianBlur =>
      cv.medianBlur orig (oddKernel (ps.kernelSize.getD 5))
  | .bilateralFilter =>
      cv.bilateralFilter orig (ps.diameter.getD 9) (ps.sigmaColor.getD 75)
        (ps.sigmaSpace.getD 75)
  | .sharpen =>
      cv.filter2D orig (sharpenKernel (ps.amount.getD (3 / 2)))

/-! ## Concrete fixtures used by the witnesses and counterexamples -/

/-- A concrete 2-pixel test image: one black and one white pixel. -/
def imgBW : Image := [(0, 0, 0), (255, 255, 255)]

/-- A concrete `cv2.kmeans` outcome on `imgBW` with k = 2: each pixel its
own cluster, centroids the two pixel colors. -/
def kmBW : KMeansOut := ⟨[0, 1], [(0, 0, 0), (255, 255, 255)]⟩

/-- A stub `cv2.kmeans` returning `kmBW`. -/
def kmeansBW : Image → Nat → Except String KMeansOut :=
  fun _ _ => Except.ok kmBW

/-- A concrete `cv2.kmeans` outcome with k = 1: a single cluster holding
every pixel, centroid the mean color. -/
def kmK1 : KMeansOut := ⟨[0, 0], [(127, 127, 127)]⟩

/-- A stub `cv2.kmeans` returning `kmK1`, as the real library does for
k = 1 on a non-empty image (its only preconditions are K >= 1 and
N >= K). -/
def kmeansK1 : Image → Nat → Except String KMeansOut :=
  fun _ _ => Except.ok kmK1

/-- A fresh session holding `imgBW`, as after a successful load. -/
def sessionBW : Session := ⟨some imgBW, none, [], [], []⟩

/-- A session after a successful load and segmentation: image, palette,
masks and visibility all populated and mutually consistent. -/
def sessionStale : Session :=
  ⟨some imgBW, some imgBW, [(1, 2, 3)], [[255, 0]], [true]⟩

/-- A stub `cv2.imread` that fails on every path (unreadable file). -/
def imreadFail : String → Option Image := fun _ => none

/-- A stub vision library whose blur outputs record the kernel size they
were invoked with, so equal outputs certify equal kernel sizes. -/
def cvProbe : VisionLib :=
  ⟨fun img ks _ => (ks, 0, 0) :: img,
   fun img ks => (ks, 0, 0) :: img,
   fun img _ _ _ => img,
   fun img _ => img⟩

/-! ## Helper lemmas about the compositing loop -/

theorem length_overlayVisible (o : Image) (m : Mask) (a : Image)
    (hm : m.length = o.length) (ha : a.length = o.length) :
    (overlayVisible o m a).length = o.length := by
  induction o generalizing m a with
  | nil =>
    cases m with
    | nil => simp [overlayVisible]
    | cons x xs => simp at hm
  | cons p ps ih =>
    cases m with
    | nil => simp at hm
    | cons x xs =>
      cases a with
      | nil => simp at ha
      | cons q qs =>
        simp only [overlayVisible, List.length_cons] at *
        rw [ih xs qs (by omega) (by omega)]

theorem getD_overlayVisible (o : Image) (m : Mask) (a : Image) (p : Nat) (d : Pix)
    (hm : m.length = o.length) (ha : a.length = o.length) (hp : p < o.length) :
    (overlayVisible o m a).getD p d =
      if m.getD p 0 = 255 then o.getD p d else a.getD p d := by
  induction o generalizing m a p with
  | nil => simp at hp
  | cons x xs ih =>
    cases m with
    | nil => simp at hm
    | cons y ys =>
      cases a with
      | nil => simp at ha
      | cons z zs =>
        cases p with
        | zero => simp [overlayVisible]
        | succ n =>
          simp only [overlayVisible, List.getD_cons_succ]
          exact ih ys zs n (by simp at hm; omega) (by simp at ha; omega)
            (by simp at hp; omega)

theorem length_combined_foldl (orig : Image) (L : List (Mask × Bool)) (acc : Image)
    (ha : acc.length = orig.length)
    (hm : ∀ mv ∈ L, (mv.1 : Mask).length = orig.length) :
    (L.foldl (fun acc mv => if mv.2 then overlayVisible orig mv.1 acc else acc)
      acc).length = orig.length := by
  induction L generalizing acc with
  | nil => simpa using ha
  | cons mv L ih =>
    simp only [List.foldl_cons]
    apply ih
    · by_cases h : mv.2 = true
      · rw [if_pos h]
        exact length_overlayVisible orig mv.1 acc (hm mv (by simp)) ha
      · rw [if_neg h]; exact ha
    · exact fun x hx => hm x (by simp [hx])

theorem getD_combined_foldl (orig : Image) (L : List (Mask × Bool)) (acc : Image)
    (d : Pix) (p : Nat)
    (ha : acc.length = orig.length)
    (hm : ∀ mv ∈ L, (mv.1 : Mask).length = orig.length)
    (hp : p < orig.length) :
    (L.foldl (fun acc mv => if mv.2 then overlayVisible orig mv.1 acc else acc)
      acc).getD p d =
      if L.any (fun mv => mv.2 && decide (mv.1.getD p 0 = 255))
      then orig.getD p d else acc.getD p d := by
  induction L generalizing acc with
  | nil => simp
  | cons mv L ih =>
    have hmv : (mv.1 : Mask).length = orig.length := hm mv (by simp)
    have ha' : (if mv.2 then overlayVisible orig mv.1 acc else acc).length
        = orig.length := by
      by_cases h : mv.2 = true
      · rw [if_pos h]; exact length_overlayVisible orig mv.1 acc hmv ha
      · rw [if_neg h]; exact ha
    simp only [List.foldl_cons]
    rw [ih _ ha' (fun x hx => hm x (by simp [hx]))]
    rw [List.any_cons]
    by_cases hrest : L.any (fun mv => mv.2 && decide (mv.1.getD p 0 = 255)) = true
    · rw [hrest]; simp
    · rw [eq_false_of_ne_true hrest]
      simp only [Bool.or_false]
      by_cases hv : mv.2 = true
      · rw [if_pos hv, getD_overlayVisible orig mv.1 acc p d hmv ha hp]
        by_cases h255 : mv.1.getD p 0 = 255
        · simp [hv, h255]
        · simp [hv, h255]
      · have hv' : mv.2 = false := by
          cases h : mv.2
          · rfl
          · exact absurd h hv
        simp [hv']

theorem length_combined_image (masks : List Mask) (vis : List Bool) (orig : Image)
    (hm : ∀ m ∈ masks, (m : Mask).length = orig.length) :
    (combined_image masks vis orig).length = orig.length := by
  apply length_combined_foldl
  · simp [zerosLike]
  · intro mv hmv
    exact hm mv.1 (List.of_mem_zip hmv).1

theorem getD_zerosLike (orig : Image) (p : Nat) (d : Pix) (hp : p < orig.length) :
    (zerosLike orig).getD p d = (0, 0, 0) := by
  rw [zerosLike, List.getD_eq_getElem _ _ (by simpa using hp)]
  simp

theorem getD_combined_image (masks : List Mask) (vis : List Bool) (orig : Image)
    (d : Pix) (p : Nat)
    (hm : ∀ m ∈ masks, (m : Mask).length = orig.length)
    (hp : p < orig.length) :
    (combined_image masks vis orig).getD p d =
      if (masks.zip vis).any (fun mv => mv.2 && decide (mv.1.getD p 0 = 255))
      then orig.getD p d else (0, 0, 0) := by
  rw [combined_image, getD_combined_foldl orig _ _ d p (by simp [zerosLike])
    (fun mv hmv => hm mv.1 (List.of_mem_zip hmv).1) hp]
  rw [getD_zerosLike orig p d hp]

/-! ## Helper lemmas about the derived cluster masks -/

theorem length_clusterMask (labels : LabelMap) (i : Nat) :
    (clusterMask labels i).length = labels.length := by
  simp [clusterMask]

theorem length_clusterMasks (labels : LabelMap) (k : Nat) :
    (clusterMasks labels k).length = k := by
  simp [clusterMasks]

theorem getElem_clusterMasks (labels : LabelMap) (k i : Nat)
    (h : i < (clusterMasks labels k).length) :
    (clusterMasks labels k)[i] = clusterMask labels i := by
  simp [clusterMasks]

theorem getD_clusterMasks (labels : LabelMap) (k i : Nat) (h : i < k) :
    (clusterMasks labels k).getD i [] = clusterMask labels i := by
  rw [List.getD_eq_getElem _ _ (by rw [length_clusterMasks]; omega)]
  exact getElem_clusterMasks labels k i _

theorem mem_clusterMasks_length (labels : LabelMap) (k : Nat) (m : Mask)
    (hm : m ∈ clusterMasks labels k) : m.length = labels.length := by
  obtain ⟨i, _, rfl⟩ := List.mem_map.mp hm
  exact length_clusterMask labels i

theorem getD_clusterMask_iff (labels : LabelMap) (i p : Nat)
    (hp : p < labels.length) :
    (clusterMask labels i).getD p 0 = 255 ↔ labels.getD p 0 = i := by
  rw [clusterMask, List.getD_eq_getElem _ _ (by simpa using hp),
      List.getD_eq_getElem _ _ hp]
  simp only [List.getElem_map]
  by_cases h : labels[p] = i
  · simp [h]
  · simp [h]

theorem any_clusterMasks_zip (labels : LabelMap) (k : Nat) (vis : List Bool)
    (p : Nat) (hp : p < labels.length) (hvis : vis.length = k)
    (hlp : labels.getD p 0 < k) :
    ((clusterMasks labels k).zip vis).any
        (fun mv => mv.2 && decide (mv.1.getD p 0 = 255))
      = vis.getD (labels.getD p 0) false := by
  have hmk : (clusterMasks labels k).length = k := length_clusterMasks labels k
  have hzlen : ((clusterMasks labels k).zip vis).length = k := by
    rw [List.length_zip, hmk, hvis]; omega
  by_cases hv : vis.getD (labels.getD p 0) false = true
  · rw [hv]
    apply List.any_eq_true.mpr
    have hlt : labels.getD p 0 < ((clusterMasks labels k).zip vis).length := by omega
    refine ⟨((clusterMasks labels k).zip vis)[labels.getD p 0], List.getElem_mem hlt, ?_⟩
    rw [List.getElem_zip]
    have hlt1 : labels.getD p 0 < vis.length := by omega
    have hlt2 : labels.getD p 0 < (clusterMasks labels k).length := by omega
    have h1 : vis[labels.getD p 0] = true := by
      rw [← List.getD_eq_getElem vis false hlt1]
      exact hv
    have h2 : (clusterMasks labels k)[labels.getD p 0]
        = clusterMask labels (labels.getD p 0) :=
      getElem_clusterMasks labels k _ _
    simp only [h1, h2, Bool.true_and, decide_eq_true_eq]
    exact (getD_clusterMask_iff labels _ p hp).mpr rfl
  · have hv' : vis.getD (labels.getD p 0) false = false := by
      cases h : vis.getD (labels.getD p 0) false
      · rfl
      · exact absurd h hv
    rw [hv']
    refine Bool.eq_false_iff.mpr (fun hany => ?_)
    obtain ⟨mv, hmem, hf⟩ := List.any_eq_true.mp hany
    obtain ⟨i, hi, hzeq⟩ := List.mem_iff_getElem.mp hmem
    rw [List.getElem_zip] at hzeq
    have hik : i < k := by omega
    rw [← hzeq] at hf
    simp only [Bool.and_eq_true, decide_eq_true_eq] at hf
    obtain ⟨hfv, hfm⟩ := hf
    have hilt : i < (clusterMasks labels k).length := by omega
    have hmi : (clusterMasks labels k)[i] = clusterMask labels i :=
      getElem_clusterMasks labels k i _
    rw [hmi] at hfm
    have : labels.getD p 0 = i :=
      (getD_clusterMask_iff labels i p hp).mp hfm
    rw [this] at hv'
    have hgd : vis.getD i false = true := by
      rw [List.getD_eq_getElem vis false (by omega)]
      exact hfv
    rw [hgd] at hv'
    simp at hv'

theorem label_lt (labels : LabelMap) (k p : Nat) (hval : ∀ l ∈ labels, l < k)
    (hp : p < labels.length) : labels.getD p 0 < k := by
  have hmem : labels.getD p 0 ∈ labels := by
    rw [List.getD_eq_getElem labels 0 hp]
    exact List.getElem_mem hp
  exact hval _ hmem

theorem getD_combined_clusterMasks (labels : LabelMap) (k : Nat) (vis : List Bool)
    (orig : Image) (d : Pix) (p : Nat)
    (hlen : labels.length = orig.length) (hval : ∀ l ∈ labels, l < k)
    (hvis : vis.length = k) (hp : p < orig.length) :
    (combined_image (clusterMasks labels k) vis orig).getD p d =
      if vis.getD (labels.getD p 0) false then orig.getD p d else (0, 0, 0) := by
  have hp' : p < labels.length := by omega
  have hlp : labels.getD p 0 < k := label_lt labels k p hval hp'
  rw [getD_combined_image _ _ _ d p
    (fun m hm => by rw [mem_clusterMasks_length labels k m hm]; exact hlen) hp]
  rw [any_clusterMasks_zip labels k vis p hp' hvis hlp]

/-! ## The claims -/

/-- C1.  For every valid K in [2,10] and every non-empty image, a successful
`segment_image` run produces exactly K masks; mask `i` is 255 exactly at
the pixel positions whose label equals `i`; and every pixel position is
255 in exactly one of the K masks (the masks partition the image).  The
label validity and length hypotheses are the `cv2.kmeans` output
contract. -/
theorem c1_segment_masks_partition
    (kmeans : Image → Nat → Except String KMeansOut) (s : Session)
    (img : Image) (k : Nat) (r : KMeansOut)
    (himg : s.original_image = some img) (hne : img ≠ [])
    (hk2 : 2 ≤ k) (hk10 : k ≤ 10)
    (hkm : kmeans img k = Except.ok r)
    (hlen : r.labels.length = img.length) (hval : ∀ l ∈ r.labels, l < k) :
    (segment_image kmeans s k).masks.length = k ∧
    (∀ i, i < k → ∀ p, p < img.length →
      (((segment_image kmeans s k).masks.getD i []).getD p 0 = 255
        ↔ r.labels.getD p 0 = i)) ∧
    (∀ p, p < img.length →
      ∃! i, i < k ∧ ((segment_image kmeans s k).masks.getD i []).getD p 0 = 255) := by
  have hmasks : (segment_image kmeans s k).masks = clusterMasks r.labels k := by
    simp [segment_image, himg, hkm]
  refine ⟨?_, ?_, ?_⟩
  · rw [hmasks, length_clusterMasks]
  · intro i hi p hp
    rw [hmasks, getD_clusterMasks r.labels k i hi]
    exact getD_clusterMask_iff r.labels i p (by omega)
  · intro p hp
    have hp' : p < r.labels.length := by omega
    have hlp : r.labels.getD p 0 < k := label_lt r.labels k p hval hp'
    refine ⟨r.labels.getD p 0, ⟨hlp, ?_⟩, ?_⟩
    · rw [hmasks, getD_clusterMasks r.labels k _ hlp]
      exact (getD_clusterMask_iff r.labels _ p hp').mpr rfl
    · rintro j ⟨hj, hj255⟩
      rw [hmasks, getD_clusterMasks r.labels k j hj] at hj255
      exact ((getD_clusterMask_iff r.labels j p hp').mp hj255).symm

theorem c1_segment_masks_partition_witness :
    sessionBW.original_image = some imgBW ∧
    imgBW ≠ [] ∧
    2 ≤ 2 ∧ 2 ≤ 10 ∧
    kmeansBW imgBW 2 = Except.ok kmBW ∧
    kmBW.labels.length = imgBW.length ∧
    (∀ l ∈ kmBW.labels, l < 2) ∧
    ((segment_image kmeansBW sessionBW 2).masks.length = 2 ∧
      (∀ i, i < 2 → ∀ p, p < imgBW.length →
        (((segment_image kmeansBW sessionBW 2).masks.getD i []).getD p 0 = 255
          ↔ kmBW.labels.getD p 0 = i)) ∧
      (∀ p, p < imgBW.length →
        ∃! i, i < 2 ∧
          ((segment_image kmeansBW sessionBW 2).masks.getD i []).getD p 0 = 255)) :=
  ⟨rfl, by decide, by decide, by decide, rfl, by decide, by decide,
    c1_segment_masks_partition kmeansBW sessionBW imgBW 2 kmBW
      rfl (by decide) (by decide) (by decide) rfl (by decide) (by decide)⟩

/-- C2.  For every original image, every family of K masks derived from a
label map that partitions its pixels, and every visibility vector of
length K, the compositing loop returns an image of the same length in
which pixel `p` is the original pixel when the cluster containing `p`
is visible, and the fixed background value `(0, 0, 0)` (black in all
three channels) when that cluster is hidden. -/
theorem c2_composite_pixel_rule (labels : LabelMap) (k : Nat) (vis : List Bool)
    (orig : Image) (d : Pix) (p : Nat)
    (hlen : labels.length = orig.length) (hval : ∀ l ∈ labels, l < k)
    (hvis : vis.length = k) (hp : p < orig.length) :
    (combined_image (clusterMasks labels k) vis orig).length = orig.length ∧
    (combined_image (clusterMasks labels k) vis orig).getD p d =
      (if vis.getD (labels.getD p 0) false then orig.getD p d else (0, 0, 0)) := by
  constructor
  · exact length_combined_image _ _ _
      (fun m hm => by rw [mem_clusterMasks_length labels k m hm]; exact hlen)
  · exact getD_combined_clusterMasks labels k vis orig d p hlen hval hvis hp

theorem c2_composite_pixel_rule_witness :
    (kmBW.labels.length = imgBW.length) ∧
    (∀ l ∈ kmBW.labels, l < 2) ∧
    ([true, false] : List Bool).length = 2 ∧
    1 < imgBW.length ∧
    ((combined_image (clusterMasks kmBW.labels 2) [true, false] imgBW).length
        = imgBW.length ∧
      (combined_image (clusterMasks kmBW.labels 2) [true, false] imgBW).getD 1 (7, 7, 7) =
        (if ([true, false] : List Bool).getD (kmBW.labels.getD 1 0) false
         then imgBW.getD 1 (7, 7, 7) else (0, 0, 0))) :=
  ⟨by decide, by decide, by decide, by decide,
    c2_composite_pixel_rule kmBW.labels 2 [true, false] imgBW (7, 7, 7) 1
      (by decide) (by decide) (by decide) (by decide)⟩

/-- C3.  For every image and every mask family derived from a label map
partitioning it, compositing with the all-true visibility vector returns
exactly the original image, and compositing with the all-false
visibility vector returns an image of the same length that is the
background value `(0, 0, 0)` at every pixel position. -/
theorem c3_composite_all_and_none (labels : LabelMap) (k : Nat) (orig : Image)
    (hlen : labels.length = orig.length) (hval : ∀ l ∈ labels, l < k) :
    combined_image (clusterMasks labels k) (List.replicate k true) orig = orig ∧
    (combined_image (clusterMasks labels k) (List.replicate k false) orig).length
      = orig.length ∧
    (∀ p, p < orig.length → ∀ d : Pix,
      (combined_image (clusterMasks labels k) (List.replicate k false) orig).getD p d
        = (0, 0, 0)) := by
  have hmlen : ∀ m ∈ clusterMasks labels k, (m : Mask).length = orig.length :=
    fun m hm => by rw [mem_clusterMasks_length labels k m hm]; exact hlen
  refine ⟨?_, length_combined_image _ _ _ hmlen, ?_⟩
  · apply List.ext_getElem (length_combined_image _ _ _ hmlen)
    intro i h1 h2
    rw [← List.getD_eq_getElem _ (0, 0, 0) h1, ← List.getD_eq_getElem _ (0, 0, 0) h2]
    rw [getD_combined_clusterMasks labels k _ orig (0, 0, 0) i hlen hval
      (List.length_replicate k true) h2]
    have hlp : labels.getD i 0 < k := label_lt labels k i hval (by omega)
    rw [List.getD_eq_getElem (List.replicate k true) false (by simpa using hlp)]
    simp
  · intro p hp d
    rw [getD_combined_clusterMasks labels k _ orig d p hlen hval
      (List.length_replicate k false) hp]
    have hlp : labels.getD p 0 < k := label_lt labels k p hval (by omega)
    rw [List.getD_eq_getElem (List.replicate k false) false (by simpa using hlp)]
    simp

theorem c3_composite_all_and_none_witness :
    (kmBW.labels.length = imgBW.length) ∧
    (∀ l ∈ kmBW.labels, l < 2) ∧
    (combined_image (clusterMasks kmBW.labels 2) (List.replicate 2 true) imgBW
        = imgBW ∧
      (combined_image (clusterMasks kmBW.labels 2) (List.replicate 2 false) imgBW).length
        = imgBW.length ∧
      (∀ p, p < imgBW.length → ∀ d : Pix,
        (combined_image (clusterMasks kmBW.labels 2) (List.replicate 2 false) imgBW).getD p d
          = (0, 0, 0))) :=
  ⟨by decide, by decide,
    c3_composite_all_and_none kmBW.labels 2 imgBW (by decide) (by decide)⟩

/-- C4 (the code violates the claim).  `segment_image` contains no range
check on `k` at all: `QIntValidator(2, 10)` classifies the single digit
"1" as Intermediate input and leaves it in the text field, and the
method passes `k = 1` straight to `cv2.kmeans` (whose only
preconditions are K >= 1 and N >= K), so a one-cluster segmentation is
installed with no error signalled.  This theorem evaluates the embedded
method at the failing input: whenever the library call succeeds at
`k = 1`, its result is installed exactly as for any valid `k`. -/
theorem c4_segment_runs_at_k1
    (kmeans : Image → Nat → Except String KMeansOut) (s : Session)
    (img : Image) (r : KMeansOut)
    (himg : s.original_image = some img)
    (hkm : kmeans img 1 = Except.ok r) :
    segment_image kmeans s 1 =
      { s with
        segmented_image := some (segmentedData (r.centers.map toPix) r.labels)
        dominant_colors := r.centers.map toPix
        masks := clusterMasks r.labels 1
        cluster_visibility := [true] } ∧
    (segment_image kmeans s 1).masks.length = 1 := by
  have h : segment_image kmeans s 1 =
      { s with
        segmented_image := some (segmentedData (r.centers.map toPix) r.labels)
        dominant_colors := r.centers.map toPix
        masks := clusterMasks r.labels 1
        cluster_visibility := [true] } := by
    simp [segment_image, himg, hkm]
  refine ⟨h, ?_⟩
  rw [h]
  exact length_clusterMasks r.labels 1

theorem c4_segment_runs_at_k1_witness :
    sessionBW.original_image = some imgBW ∧
    kmeansK1 imgBW 1 = Except.ok kmK1 ∧
    (segment_image kmeansK1 sessionBW 1 =
        { sessionBW with
          segmented_image := some (segmentedData (kmK1.centers.map toPix) kmK1.labels)
          dominant_colors := kmK1.centers.map toPix
          masks := clusterMasks kmK1.labels 1
          cluster_visibility := [true] } ∧
      (segment_image kmeansK1 sessionBW 1).masks.length = 1) :=
  ⟨rfl, rfl, c4_segment_runs_at_k1 kmeansK1 sessionBW imgBW kmK1 rfl rfl⟩

/-- C5 (the code violates the claim).  `load_image` assigns
`self.original_image = cv2.imread(file_path)` before validating it, so
when the read fails the previously valid image is destroyed (replaced
by `None`) while the stale palette, masks, visibility flags and
segmented image of the old image are all kept: the session is partially
mutated and left inconsistent, contrary to the claim that the previous
Image/Palette/Masks remain intact. -/
theorem c5_load_failure_partial_mutation
    (imread : String → Option Image) (resize : Image → Image)
    (s : Session) (path : String)
    (hfail : imread path = none) :
    load_image imread resize s (some path) = { s with original_image := none } ∧
    (load_image imread resize s (some path)).original_image = none ∧
    (load_image imread resize s (some path)).masks = s.masks ∧
    (load_image imread resize s (some path)).dominant_colors = s.dominant_colors ∧
    (load_image imread resize s (some path)).segmented_image = s.segmented_image := by
  have h : load_image imread resize s (some path) = { s with original_image := none } := by
    simp [load_image, hfail]
  refine ⟨h, ?_, ?_, ?_, ?_⟩ <;> rw [h]

theorem c5_load_failure_partial_mutation_witness :
    imreadFail "bad.png" = none ∧
    (load_image imreadFail id sessionStale (some "bad.png")
        = { sessionStale with original_image := none } ∧
      (load_image imreadFail id sessionStale (some "bad.png")).original_image = none ∧
      (load_image imreadFail id sessionStale (some "bad.png")).masks = sessionStale.masks ∧
      (load_image imreadFail id sessionStale (some "bad.png")).dominant_colors
        = sessionStale.dominant_colors ∧
      (load_image imreadFail id sessionStale (some "bad.png")).segmented_image
        = sessionStale.segmented_image) :=
  ⟨rfl, c5_load_failure_partial_mutation imreadFail id sessionStale "bad.png" rfl⟩

/-- C6 counterexample.  The program converts centroids with
`np.uint8(centers)`, a truncating cast: the centroid channel
764/3 = 254.66... yields palette value 254, while 255 is strictly
nearer, so the palette entry is not the centroid rounded to the nearest
8-bit integer. -/
theorem c6_palette_not_rounded_cex :
    toPix (764 / 3, 0, 0) = (254, 0, 0) ∧
    |(764 : ℚ) / 3 - 255| < |(764 : ℚ) / 3 - 254| := by
  constructor
  · have h1 : np_uint8 (764 / 3) = 254 := by
      have hf : ⌊(764 : ℚ) / 3⌋ = 254 := by norm_num
      rw [np_uint8, hf]
      rfl
    have h2 : np_uint8 0 = 0 := rfl
    simp [toPix, h1, h2]
  · rw [abs_of_nonpos (by norm_num), abs_of_nonneg (by norm_num)]
    norm_num

/-- C6 amended.  Each palette entry is the corresponding final centroid
with each channel converted by the truncating uint8 cast: the session
palette is exactly `np.uint8` of the K final centroids, and for an
in-range channel value q the stored 8-bit value u is the greatest
integer not exceeding q (u <= q < u + 1) — truncation, not rounding to
nearest. -/
theorem c6_palette_truncates
    (kmeans : Image → Nat → Except String KMeansOut) (s : Session)
    (img : Image) (k : Nat) (r : KMeansOut)
    (himg : s.original_image = some img) (hkm : kmeans img k = Except.ok r)
    (q : ℚ) (h0 : 0 ≤ q) (h256 : q < 256) :
    (segment_image kmeans s k).dominant_colors = r.centers.map toPix ∧
    (np_uint8 q : ℚ) ≤ q ∧ q < (np_uint8 q : ℚ) + 1 := by
  have hf0 : 0 ≤ ⌊q⌋ := Int.floor_nonneg.mpr h0
  have hf256 : ⌊q⌋ < 256 := by rw [Int.floor_lt]; exact_mod_cast h256
  have hmod : np_uint8 q = (⌊q⌋).toNat := by
    rw [np_uint8]; exact Nat.mod_eq_of_lt (by omega)
  have hcast : ((⌊q⌋.toNat : ℚ)) = ((⌊q⌋ : ℚ)) := by
    exact_mod_cast congrArg (fun z : ℤ => (z : ℚ)) (Int.toNat_of_nonneg hf0)
  refine ⟨by simp [segment_image, himg, hkm], ?_, ?_⟩
  · rw [hmod, hcast]
    exact Int.floor_le q
  · rw [hmod, hcast]
    exact Int.lt_floor_add_one q

theorem c6_palette_truncates_witness :
    sessionBW.original_image = some imgBW ∧
    kmeansBW imgBW 2 = Except.ok kmBW ∧
    0 ≤ (509 : ℚ) / 2 ∧ (509 : ℚ) / 2 < 256 ∧
    ((segment_image kmeansBW sessionBW 2).dominant_colors = kmBW.centers.map toPix ∧
      (np_uint8 ((509 : ℚ) / 2) : ℚ) ≤ (509 : ℚ) / 2 ∧
      (509 : ℚ) / 2 < (np_uint8 ((509 : ℚ) / 2) : ℚ) + 1) :=
  ⟨rfl, rfl, by norm_num, by norm_num,
    c6_palette_truncates kmeansBW sessionBW imgBW 2 kmBW rfl rfl
      ((509 : ℚ) / 2) (by norm_num) (by norm_num)⟩

/-- C7 counterexample.  After segmenting the black-and-white two-pixel
image with k = 2 and applying the all-hidden visibility set, the
session's stored segmented image is the composite (all background), no
longer the palette-colored image `Palette[LabelMap[p]]`, refuting the
claim that the stored segmented image always remains equal to the
palette-colored image between segmentation runs. -/
theorem c7_segmented_image_overwritten_cex :
    (apply_visibility
        ⟨(segment_image kmeansBW sessionBW 2).masks,
         (segment_image kmeansBW sessionBW 2).dominant_colors,
         imgBW, [false, false]⟩
        (segment_image kmeansBW sessionBW 2)).segmented_image
      = some [(0, 0, 0), (0, 0, 0)] ∧
    segmentedData (segment_image kmeansBW sessionBW 2).dominant_colors kmBW.labels
      = [(0, 0, 0), (255, 255, 255)] ∧
    some ([(0, 0, 0), (0, 0, 0)] : Image)
      ≠ some ([(0, 0, 0), (255, 255, 255)] : Image) := by
  refine ⟨by decide, by decide, by decide⟩

/-- C7 amended.  The session keeps one derived image field.  A
segmentation run recomputes it deterministically from the clustering
output as the palette-colored image, and `apply_visibility` recomputes
the same field deterministically as the composite of
(Masks, VisibilitySet, original Image) — overwriting the
palette-colored image rather than leaving it intact — while the
session's original image, palette and masks stay unchanged and the
visibility set becomes the dialog's. -/
theorem c7_derived_images_recomputed
    (kmeans : Image → Nat → Except String KMeansOut) (s : Session)
    (img : Image) (k : Nat) (r : KMeansOut)
    (himg : s.original_image = some img) (hkm : kmeans img k = Except.ok r)
    (d : MaskDialog) (parent : Session) :
    (segment_image kmeans s k).segmented_image
      = some (segmentedData (r.centers.map toPix) r.labels) ∧
    (apply_visibility d parent).segmented_image
      = some (combined_image d.masks d.cluster_visibility d.original_image) ∧
    (apply_visibility d parent).original_image = parent.original_image ∧
    (apply_visibility d parent).dominant_colors = parent.dominant_colors ∧
    (apply_visibility d parent).masks = parent.masks ∧
    (apply_visibility d parent).cluster_visibility = d.cluster_visibility :=
  ⟨by simp [segment_image, himg, hkm], rfl, rfl, rfl, rfl, rfl⟩

theorem c7_derived_images_recomputed_witness :
    sessionBW.original_image = some imgBW ∧
    kmeansBW imgBW 2 = Except.ok kmBW ∧
    ((segment_image kmeansBW sessionBW 2).segmented_image
        = some (segmentedData (kmBW.centers.map toPix) kmBW.labels) ∧
      (apply_visibility ⟨[[255, 0]], [(1, 2, 3)], imgBW, [false]⟩ sessionStale).segmented_image
        = some (combined_image [[255, 0]] [false] imgBW) ∧
      (apply_visibility ⟨[[255, 0]], [(1, 2, 3)], imgBW, [false]⟩ sessionStale).original_image
        = sessionStale.original_image ∧
      (apply_visibility ⟨[[255, 0]], [(1, 2, 3)], imgBW, [false]⟩ sessionStale).dominant_colors
        = sessionStale.dominant_colors ∧
      (apply_visibility ⟨[[255, 0]], [(1, 2, 3)], imgBW, [false]⟩ sessionStale).masks
        = sessionStale.masks ∧
      (apply_visibility ⟨[[255, 0]], [(1, 2, 3)], imgBW, [false]⟩ sessionStale).cluster_visibility
        = [false]) :=
  ⟨rfl, rfl,
    c7_derived_images_recomputed kmeansBW sessionBW imgBW 2 kmBW rfl rfl
      ⟨[[255, 0]], [(1, 2, 3)], imgBW, [false]⟩ sessionStale⟩

/-- C8.  After every successful segmentation run the stored segmented
image has the same length as the source image and every pixel is its
cluster's palette color: `SegmentedImage[p] = Palette[LabelMap[p]]`.
The label validity and length hypotheses are the `cv2.kmeans` output
contract. -/
theorem c8_segmented_is_palette_of_labels
    (kmeans : Image → Nat → Except String KMeansOut) (s : Session)
    (img : Image) (k : Nat) (r : KMeansOut) (d : Pix)
    (himg : s.original_image = some img) (hkm : kmeans img k = Except.ok r)
    (hlen : r.labels.length = img.length)
    (hval : ∀ l ∈ r.labels, l < r.centers.length) :
    ∃ seg : Image, (segment_image kmeans s k).segmented_image = some seg ∧
      seg.length = img.length ∧
      ∀ p, p < img.length →
        seg.getD p d
          = (segment_image kmeans s k).dominant_colors.getD (r.labels.getD p 0) d := by
  have hdc : (segment_image kmeans s k).dominant_colors = r.centers.map toPix := by
    simp [segment_image, himg, hkm]
  refine ⟨segmentedData (r.centers.map toPix) r.labels,
    by simp [segment_image, himg, hkm], ?_, ?_⟩
  · rw [segmentedData, List.length_map, hlen]
  · intro p hp
    have hp' : p < r.labels.length := by omega
    rw [hdc, List.getD_eq_getElem r.labels 0 hp']
    have hx : r.labels[p] < (r.centers.map toPix).length := by
      rw [List.length_map]
      exact hval _ (List.getElem_mem hp')
    rw [segmentedData, List.getD_eq_getElem _ d (by simpa using hp'), List.getElem_map]
    rw [List.getD_eq_getElem _ (0, 0, 0) hx, List.getD_eq_getElem _ d hx]

theorem c8_segmented_is_palette_of_labels_witness :
    sessionBW.original_image = some imgBW ∧
    kmeansBW imgBW 2 = Except.ok kmBW ∧
    kmBW.labels.length = imgBW.length ∧
    (∀ l ∈ kmBW.labels, l < kmBW.centers.length) ∧
    (∃ seg : Image, (segment_image kmeansBW sessionBW 2).segmented_image = some seg ∧
      seg.length = imgBW.length ∧
      ∀ p, p < imgBW.length →
        seg.getD p (9, 9, 9)
          = (segment_image kmeansBW sessionBW 2).dominant_colors.getD
              (kmBW.labels.getD p 0) (9, 9, 9)) :=
  ⟨rfl, rfl, by decide, by decide,
    c8_segmented_is_palette_of_labels kmeansBW sessionBW imgBW 2 kmBW (9, 9, 9)
      rfl rfl (by decide) (by decide)⟩

/-- C9.  Even blur kernel sizes are silently incremented to the next odd
value before the library filter is invoked: for every vision library,
image and sigma, a GaussianBlur call with an even kernel size produces
output equal to the call with the next odd kernel size and the same
sigma, and likewise for MedianBlur; an odd kernel size is passed through
to the library unchanged. -/
theorem c9_even_kernel_normalized (cv : VisionLib) (orig : Image) (sigma : ℚ)
    (ks ks' : Nat) (heven : ks % 2 = 0) (hodd : ks' % 2 = 1) :
    apply_filter cv orig .gaussianBlur ⟨some ks, some sigma, none, none, none, none⟩
      = apply_filter cv orig .gaussianBlur
          ⟨some (ks + 1), some sigma, none, none, none, none⟩ ∧
    apply_filter cv orig .medianBlur ⟨some ks, none, none, none, none, none⟩
      = apply_filter cv orig .medianBlur ⟨some (ks + 1), none, none, none, none, none⟩ ∧
    apply_filter cv orig .gaussianBlur ⟨some ks', some sigma, none, none, none, none⟩
      = cv.gaussianBlur orig ks' sigma ∧
    oddKernel ks = ks + 1 ∧ oddKernel ks' = ks' := by
  have h1 : oddKernel ks = ks + 1 := by rw [oddKernel, if_neg]; omega
  have h2 : oddKernel (ks + 1) = ks + 1 := by rw [oddKernel, if_pos]; omega
  have h3 : oddKernel ks' = ks' := by rw [oddKernel, if_pos hodd]
  refine ⟨?_, ?_, ?_, h1, h3⟩
  · simp [apply_filter, h1, h2]
  · simp [apply_filter, h1, h2]
  · simp [apply_filter, h3]

theorem c9_even_kernel_normalized_witness :
    4 % 2 = 0 ∧ 5 % 2 = 1 ∧
    (apply_filter cvProbe imgBW .gaussianBlur ⟨some 4, some 1, none, none, none, none⟩
        = apply_filter cvProbe imgBW .gaussianBlur
            ⟨some (4 + 1), some 1, none, none, none, none⟩ ∧
      apply_filter cvProbe imgBW .medianBlur ⟨some 4, none, none, none, none, none⟩
        = apply_filter cvProbe imgBW .medianBlur
            ⟨some (4 + 1), none, none, none, none, none⟩ ∧
      apply_filter cvProbe imgBW .gaussianBlur ⟨some 5, some 1, none, none, none, none⟩
        = cvProbe.gaussianBlur imgBW 5 1 ∧
      oddKernel 4 = 4 + 1 ∧ oddKernel 5 = 5) :=
  ⟨rfl, rfl, c9_even_kernel_normalized cvProbe imgBW 1 4 5 rfl rfl⟩

theorem getD_mask_color_image (orig : Image) (m : Mask) (c : Pix) (p : Nat) (d : Pix)
    (hm : m.length = orig.length) (hp : p < orig.length) :
    (mask_color_image orig m c).getD p d
      = if m.getD p 0 = 255 then c else (0, 0, 0) := by
  induction orig generalizing m p with
  | nil => simp at hp
  | cons x xs ih =>
    cases m with
    | nil => simp at hm
    | cons y ys =>
      cases p with
      | zero => simp [mask_color_image]
      | succ n =>
        simp only [mask_color_image, List.getD_cons_succ]
        exact ih ys n (by simp at hm; omega) (by simp at hp; omega)

/-- C10.  Every cell of every mask produced by segmentation is 0 or 255
(255 meaning membership), and every consumer of masks — the compositing
loop of the visibility dialog and the colored mask view used for mask
display and mask export — decides membership by equality with 255: a
cell equal to 255 contributes the original pixel (or the cluster
color), and any other cell value contributes nothing. -/
theorem c10_masks_binary_consumers_eq255
    (labels : LabelMap) (k : Nat) (orig acc : Image) (m : Mask) (c d : Pix) (p : Nat)
    (hmo : m.length = orig.length) (hao : acc.length = orig.length)
    (hp : p < orig.length) :
    (∀ mk ∈ clusterMasks labels k, ∀ v ∈ mk, v = 0 ∨ v = 255) ∧
    (m.getD p 0 ≠ 255 → (overlayVisible orig m acc).getD p d = acc.getD p d) ∧
    (m.getD p 0 = 255 → (overlayVisible orig m acc).getD p d = orig.getD p d) ∧
    (m.getD p 0 ≠ 255 → (mask_color_image orig m c).getD p d = (0, 0, 0)) ∧
    (m.getD p 0 = 255 → (mask_color_image orig m c).getD p d = c) := by
  refine ⟨?_, ?_, ?_, ?_, ?_⟩
  · intro mk hmk v hv
    obtain ⟨i, _, rfl⟩ := List.mem_map.mp hmk
    obtain ⟨l, _, rfl⟩ := List.mem_map.mp hv
    by_cases h : l = i
    · right; simp [h]
    · left; simp [h]
  · intro h255
    rw [getD_overlayVisible orig m acc p d hmo hao hp, if_neg h255]
  · intro h255
    rw [getD_overlayVisible orig m acc p d hmo hao hp, if_pos h255]
  · intro h255
    rw [getD_mask_color_image orig m c p d hmo hp, if_neg h255]
  · intro h255
    rw [getD_mask_color_image orig m c p d hmo hp, if_pos h255]

theorem c10_masks_binary_consumers_eq255_witness :
    ([255, 0] : Mask).length = imgBW.length ∧
    ([(1, 1, 1), (2, 2, 2)] : Image).length = imgBW.length ∧
    0 < imgBW.length ∧
    ((∀ mk ∈ clusterMasks kmBW.labels 2, ∀ v ∈ mk, v = 0 ∨ v = 255) ∧
      (([255, 0] : Mask).getD 0 0 ≠ 255 →
        (overlayVisible imgBW [255, 0] [(1, 1, 1), (2, 2, 2)]).getD 0 (5, 5, 5)
          = ([(1, 1, 1), (2, 2, 2)] : Image).getD 0 (5, 5, 5)) ∧
      (([255, 0] : Mask).getD 0 0 = 255 →
        (overlayVisible imgBW [255, 0] [(1, 1, 1), (2, 2, 2)]).getD 0 (5, 5, 5)
          = imgBW.getD 0 (5, 5, 5)) ∧
      (([255, 0] : Mask).getD 0 0 ≠ 255 →
        (mask_color_image imgBW [255, 0] (9, 9, 9)).getD 0 (5, 5, 5) = (0, 0, 0)) ∧
      (([255, 0] : Mask).getD 0 0 = 255 →
        (mask_color_image imgBW [255, 0] (9, 9, 9)).getD 0 (5, 5, 5) = (9, 9, 9))) :=
  ⟨by decide, by decide, by decide,
    c10_masks_binary_consumers_eq255 kmBW.labels 2 imgBW [(1, 1, 1), (2, 2, 2)]
      [255, 0] (9, 9, 9) (5, 5, 5) 0 (by decide) (by decide) (by decide)⟩
